import Mathlib

/-!
Shallow embedding of `src/qconv_param/logic.py` (effect-size conversions):
`cohen_d_to_r_pb`, `auc_to_d`, `logodds_to_d`, `logodds_from_sens_spec`
and `logodds_from_ppv_npv`.  Machine floats are modelled as real numbers;
fallible calls return `Except PyError ℝ`, where `PyError` covers the two
`ValueError`s the module raises explicitly and the arithmetic errors the
Python runtime raises on its own (division by a zero float, `math.sqrt`
or `math.log` of an argument outside its domain).  The external standard
normal quantile `scipy.stats.norm.ppf` is an abstract parameter `ppf`.
-/

open Classical

/-- Failure outcomes of a call: the explicit range `ValueError` of
`auc_to_d` ("AUC must be between 0.5 and 1.0"), its explicit
missing-context `ValueError`, a runtime `ZeroDivisionError`, and a
runtime math-domain `ValueError` (`math.sqrt` / `math.log` outside the
domain). -/
inductive PyError
  | domainRange
  | usage
  | zeroDivision
  | mathDomain
  deriving DecidableEq

/-- Predicate of `np.isclose(a, b)` at its default tolerances:
`|a - b| <= atol + rtol * |b|` with `rtol = 1e-5` and `atol = 1e-8`. -/
def isclose (a b : ℝ) : Prop := |a - b| ≤ 1e-8 + 1e-5 * |b|

/-- The test `s1 is not None and s2 is not None and np.isclose(s1, s2)`
from `auc_to_d`. -/
def bothSuppliedClose : Option ℝ → Option ℝ → Prop
  | some a, some b => isclose a b
  | _, _ => False

/-- The test `p1 is not None and np.isclose(p1, 0.5)` from `auc_to_d`. -/
def suppliedCloseHalf : Option ℝ → Prop
  | some q => isclose q 0.5
  | none => False

/-- How many of the three optional context arguments were supplied. -/
def numSupplied (s1 s2 p1 : Option ℝ) : ℕ :=
  (if s1.isSome then 1 else 0) + (if s2.isSome then 1 else 0) +
    (if p1.isSome then 1 else 0)

/-- Embedding of `cohen_d_to_r_pb(d, p)` from `logic.py`.
`h = 1 / (p * (1 - p))` raises `ZeroDivisionError` when `p * (1 - p)`
is the zero float; `math.sqrt(d**2 + h)` raises a math-domain
`ValueError` when its argument is negative; the final division raises
`ZeroDivisionError` when the square root evaluates to zero.  Otherwise
the value `d / sqrt(d^2 + h)` is returned. -/
noncomputable def cohen_d_to_r_pb (d p : ℝ) : Except PyError ℝ :=
  if p * (1 - p) = 0 then .error .zeroDivision
  else
    let h := 1 / (p * (1 - p))
    if d ^ 2 + h < 0 then .error .mathDomain
    else if Real.sqrt (d ^ 2 + h) = 0 then .error .zeroDivision
    else .ok (d / Real.sqrt (d ^ 2 + h))

/-- Embedding of `auc_to_d(auc, s1, s2, p1)` from `logic.py`, with the
branches in source order: the range guard, the all-defaults balanced
case, the `np.isclose(s1, s2)` shortcut, the `np.isclose(p1, 0.5)`
shortcut, the missing-context `ValueError`, and the full parametric
formula (whose float division raises `ZeroDivisionError` when the
denominator is zero).  `ppf` stands for `scipy.stats.norm.ppf`. -/
noncomputable def auc_to_d (ppf : ℝ → ℝ) (auc : ℝ)
    (s1 s2 p1 : Option ℝ) : Except PyError ℝ :=
  if ¬ (0.5 ≤ auc ∧ auc ≤ 1.0) then .error .domainRange
  else
    let z_score := ppf auc
    if s1 = none ∧ s2 = none ∧ p1 = none then .ok (Real.sqrt 2 * z_score)
    else if bothSuppliedClose s1 s2 then .ok (Real.sqrt 2 * z_score)
    else if suppliedCloseHalf p1 then .ok (Real.sqrt 2 * z_score)
    else
      match s1, s2, p1 with
      | some a, some b, some q =>
          let p2 := 1 - q
          let numerator := a ^ 2 + b ^ 2
          let denominator := q * a ^ 2 + p2 * b ^ 2
          if denominator = 0 then .error .zeroDivision
          else .ok (Real.sqrt (numerator / denominator) * z_score)
      | _, _, _ => .error .usage

/-- The full parametric expression of `auc_to_d`'s final branch,
`sqrt((s1^2 + s2^2) / (p1*s1^2 + (1-p1)*s2^2)) * z`, as a standalone
function of the context and the z-score. -/
noncomputable def full_parametric (s1 s2 p1 z : ℝ) : ℝ :=
  Real.sqrt ((s1 ^ 2 + s2 ^ 2) / (p1 * s1 ^ 2 + (1 - p1) * s2 ^ 2)) * z

/-- Embedding of `logodds_to_d(logodds)` from `logic.py`:
`logodds * (sqrt(3) / pi)`. -/
noncomputable def logodds_to_d (logodds : ℝ) : ℝ :=
  let factor := Real.sqrt 3 / Real.pi
  logodds * factor

/-- The epsilon constant used by both log-odds functions. -/
noncomputable def eps : ℝ := 1e-9

/-- Embedding of `np.clip(x, lo, hi)` on scalars:
`min(hi, max(x, lo))`. -/
noncomputable def npClip (x lo hi : ℝ) : ℝ := min (max x lo) hi

/-- Embedding of `math.log(x)`: raises a math-domain `ValueError` on a
nonpositive float, otherwise returns the natural logarithm. -/
noncomputable def mathLog (x : ℝ) : Except PyError ℝ :=
  if x ≤ 0 then .error .mathDomain else .ok (Real.log x)

/-- Embedding of `logodds_from_sens_spec(sensitivity, specificity)` from
`logic.py`: both inputs are clipped into `[eps, 1 - eps]`, then
`log((sens*spec) / ((1-sens)*(1-spec)))` is taken. -/
noncomputable def logodds_from_sens_spec
    (sensitivity specificity : ℝ) : Except PyError ℝ :=
  let sens := npClip sensitivity eps (1 - eps)
  let spec := npClip specificity eps (1 - eps)
  let odds_ratio := (sens * spec) / ((1 - sens) * (1 - spec))
  mathLog odds_ratio

/-- Embedding of `logodds_from_ppv_npv(ppv, npv)` from `logic.py`:
identical clipping and formula, applied to PPV and NPV. -/
noncomputable def logodds_from_ppv_npv (ppv npv : ℝ) : Except PyError ℝ :=
  let p := npClip ppv eps (1 - eps)
  let n := npClip npv eps (1 - eps)
  let odds_ratio := (p * n) / ((1 - p) * (1 - n))
  mathLog odds_ratio

/-- C1: for every `auc` in `[0.5, 1.0]`, calling `auc_to_d` with none of
`s1`, `s2`, `p1` supplied returns `sqrt(2) * ppf(auc)`, where `ppf` is
the standard normal quantile function the module imports. -/
theorem auc_to_d_balanced (ppf : ℝ → ℝ) (auc : ℝ)
    (h1 : 0.5 ≤ auc) (h2 : auc ≤ 1.0) :
    auc_to_d ppf auc none none none = .ok (Real.sqrt 2 * ppf auc) := by
  unfold auc_to_d
  rw [if_neg (not_not_intro ⟨h1, h2⟩), if_pos ⟨rfl, rfl, rfl⟩]

/-- Witness for C1 at `auc = 0.75` with the identity as quantile. -/
theorem auc_to_d_balanced_witness :
    ((0.5 : ℝ) ≤ 0.75 ∧ (0.75 : ℝ) ≤ 1.0) ∧
    auc_to_d (fun x => x) 0.75 none none none =
      .ok (Real.sqrt 2 * 0.75) :=
  ⟨⟨by norm_num, by norm_num⟩,
    auc_to_d_balanced (fun x => x) 0.75 (by norm_num) (by norm_num)⟩

/-- C3: for every `auc` outside `[0.5, 1.0]`, `auc_to_d` fails with the
domain-range error whatever `s1`, `s2`, `p1` are; no clamped value is
ever returned. -/
theorem auc_to_d_out_of_range (ppf : ℝ → ℝ) (auc : ℝ)
    (s1 s2 p1 : Option ℝ) (h : auc < 0.5 ∨ 1.0 < auc) :
    auc_to_d ppf auc s1 s2 p1 = .error .domainRange := by
  unfold auc_to_d
  rw [if_pos]
  rintro ⟨hlo, hhi⟩
  rcases h with h | h
  · exact absurd hlo (not_le.mpr h)
  · exact absurd hhi (not_le.mpr h)

/-- Witness for C3 at `auc = 0.25` with assorted context arguments. -/
theorem auc_to_d_out_of_range_witness :
    ((0.25 : ℝ) < 0.5 ∨ (1.0 : ℝ) < 0.25) ∧
    auc_to_d (fun x => x) 0.25 (some 1) none (some 0.7) =
      .error .domainRange :=
  ⟨Or.inl (by norm_num),
    auc_to_d_out_of_range (fun x => x) 0.25 (some 1) none (some 0.7)
      (Or.inl (by norm_num))⟩

/-- C8: `logodds_to_d` is the linear map `x * sqrt(3) / pi`; in
particular it commutes with doubling. -/
theorem logodds_to_d_linear (x : ℝ) :
    logodds_to_d (2 * x) = 2 * logodds_to_d x ∧
    logodds_to_d x = x * Real.sqrt 3 / Real.pi := by
  unfold logodds_to_d
  exact ⟨by ring, by ring⟩

/-- Auxiliary: for `p` strictly between 0 and 1 the divisor `p * (1 - p)`
is strictly positive. -/
theorem p_mul_one_sub_pos {p : ℝ} (h0 : 0 < p) (h1 : p < 1) :
    0 < p * (1 - p) :=
  mul_pos h0 (by linarith)

/-- C7: for every real `d` and every `p` strictly between 0 and 1,
`cohen_d_to_r_pb` succeeds with a value strictly inside `(-1, 1)` whose
sign equals the sign of `d`. -/
theorem cohen_d_to_r_pb_range_sign (d p : ℝ) (h0 : 0 < p) (h1 : p < 1) :
    ∃ r, cohen_d_to_r_pb d p = .ok r ∧ |r| < 1 ∧
      (0 < d → 0 < r) ∧ (d < 0 → r < 0) ∧ (d = 0 → r = 0) := by
  have hpp : 0 < p * (1 - p) := p_mul_one_sub_pos h0 h1
  have hh : 0 < 1 / (p * (1 - p)) := by positivity
  have harg : 0 < d ^ 2 + 1 / (p * (1 - p)) := by positivity
  have hsq : 0 < Real.sqrt (d ^ 2 + 1 / (p * (1 - p))) :=
    Real.sqrt_pos.mpr harg
  refine ⟨d / Real.sqrt (d ^ 2 + 1 / (p * (1 - p))), ?_, ?_, ?_, ?_, ?_⟩
  · unfold cohen_d_to_r_pb
    rw [if_neg hpp.ne', if_neg (not_lt.mpr harg.le), if_neg hsq.ne']
  · rw [abs_div, abs_of_pos hsq, div_lt_one hsq]
    have : |d| ^ 2 < d ^ 2 + 1 / (p * (1 - p)) := by
      rw [sq_abs]; linarith
    calc |d| = Real.sqrt (|d| ^ 2) := by
          rw [Real.sqrt_sq (abs_nonneg d)]
      _ < Real.sqrt (d ^ 2 + 1 / (p * (1 - p))) :=
          Real.sqrt_lt_sqrt (by positivity) this
  · exact fun hd => div_pos hd hsq
  · exact fun hd => div_neg_of_neg_of_pos hd hsq
  · exact fun hd => by rw [hd, zero_div]

/-- Witness for C7 at `d = 1`, `p = 1/2`. -/
theorem cohen_d_to_r_pb_range_sign_witness :
    ((0 : ℝ) < 1 / 2 ∧ (1 / 2 : ℝ) < 1) ∧
    ∃ r, cohen_d_to_r_pb 1 (1 / 2) = .ok r ∧ |r| < 1 ∧
      ((0 : ℝ) < 1 → 0 < r) ∧ ((1 : ℝ) < 0 → r < 0) ∧
      ((1 : ℝ) = 0 → r = 0) :=
  ⟨⟨by norm_num, by norm_num⟩,
    cohen_d_to_r_pb_range_sign 1 (1 / 2) (by norm_num) (by norm_num)⟩

/-- Auxiliary: the value `cohen_d_to_r_pb(0.5, 0.25)` returns, in closed
form: `h = 1/(0.25 * 0.75) = 16/3` and `r = 0.5 / sqrt(0.25 + 16/3)`. -/
theorem cohen_d_to_r_pb_half_quarter :
    cohen_d_to_r_pb 0.5 0.25 =
      .ok (0.5 / Real.sqrt ((0.5 : ℝ) ^ 2 + 1 / (0.25 * (1 - 0.25)))) := by
  have harg : (0 : ℝ) < (0.5 : ℝ) ^ 2 + 1 / (0.25 * (1 - 0.25)) := by
    norm_num
  unfold cohen_d_to_r_pb
  rw [if_neg (by norm_num), if_neg (not_lt.mpr harg.le),
    if_neg (Real.sqrt_pos.mpr harg).ne']

/-- Auxiliary: two-sided bounds on `0.5 / sqrt(0.25 + 16/3)`: the value
lies in `(0.2115, 0.2117)`. -/
theorem half_quarter_value_bounds :
    0.2115 < (0.5 : ℝ) / Real.sqrt ((0.5 : ℝ) ^ 2 + 1 / (0.25 * (1 - 0.25))) ∧
    (0.5 : ℝ) / Real.sqrt ((0.5 : ℝ) ^ 2 + 1 / (0.25 * (1 - 0.25))) < 0.2117 := by
  have he : (0.5 : ℝ) ^ 2 + 1 / (0.25 * (1 - 0.25)) = 67 / 12 := by norm_num
  rw [he]
  have hs : Real.sqrt (67 / 12) ^ 2 = 67 / 12 :=
    Real.sq_sqrt (by norm_num)
  have hpos : 0 < Real.sqrt (67 / 12) := Real.sqrt_pos.mpr (by norm_num)
  constructor
  · rw [lt_div_iff hpos]
    nlinarith [hs, hpos]
  · rw [div_lt_iff hpos]
    nlinarith [hs, hpos]

/-- C6 counterexample: `cohen_d_to_r_pb(0.5, p=0.25)` does return
`0.5 / sqrt(0.25 + h)` with `h = 1/(0.25*0.75)`, but that value is not
approximately `0.2142`: it differs from `0.2142` by more than `0.002`
(it is `0.21160...`). -/
theorem cohen_d_to_r_pb_literal_not_2142 :
    cohen_d_to_r_pb 0.5 0.25 =
      .ok (0.5 / Real.sqrt ((0.5 : ℝ) ^ 2 + 1 / (0.25 * (1 - 0.25)))) ∧
    ¬ |(0.5 : ℝ) / Real.sqrt ((0.5 : ℝ) ^ 2 + 1 / (0.25 * (1 - 0.25)))
        - 0.2142| ≤ 0.002 := by
  refine ⟨cohen_d_to_r_pb_half_quarter, ?_⟩
  obtain ⟨hlo, hhi⟩ := half_quarter_value_bounds
  rw [abs_le]
  rintro ⟨hc, -⟩
  linarith

/-- C6 as amended: `cohen_d_to_r_pb(0.5, p=0.25)` computes
`h = 1/(0.25*0.75) = 16/3 ≈ 5.333` and returns
`r = 0.5 / sqrt(0.25 + h)`, approximately `0.2116`. -/
theorem cohen_d_to_r_pb_literal_example :
    (1 / (0.25 * (1 - 0.25)) : ℝ) = 16 / 3 ∧
    cohen_d_to_r_pb 0.5 0.25 =
      .ok (0.5 / Real.sqrt ((0.5 : ℝ) ^ 2 + 1 / (0.25 * (1 - 0.25)))) ∧
    |(0.5 : ℝ) / Real.sqrt ((0.5 : ℝ) ^ 2 + 1 / (0.25 * (1 - 0.25)))
        - 0.2116| ≤ 0.001 := by
  refine ⟨by norm_num, cohen_d_to_r_pb_half_quarter, ?_⟩
  obtain ⟨hlo, hhi⟩ := half_quarter_value_bounds
  rw [abs_le]
  constructor <;> linarith

/-- C9: `cohen_d_to_r_pb` never validates `p`.  At `p = 0` or `p = 1`
the divisor of `h` is the zero float and the call dies with an unguarded
`ZeroDivisionError` for any `d`; for `p` outside `[0, 1]` the call can
raise a square-root math-domain error (`d = 0.5`, `p = 1.5`, where
`d^2 + h < 0`) or return a value of magnitude above 1
(`d = 2`, `p = 1.5`). -/
theorem cohen_d_to_r_pb_unvalidated_p (d : ℝ) :
    cohen_d_to_r_pb d 0 = .error .zeroDivision ∧
    cohen_d_to_r_pb d 1 = .error .zeroDivision ∧
    cohen_d_to_r_pb 0.5 1.5 = .error .mathDomain ∧
    ∃ r, cohen_d_to_r_pb 2 1.5 = .ok r ∧ 1 < |r| := by
  refine ⟨?_, ?_, ?_, ?_⟩
  · unfold cohen_d_to_r_pb; rw [if_pos (by norm_num)]
  · unfold cohen_d_to_r_pb; rw [if_pos (by norm_num)]
  · unfold cohen_d_to_r_pb
    rw [if_neg (by norm_num), if_pos (by norm_num)]
  · have harg : ((2 : ℝ) ^ 2 + 1 / (1.5 * (1 - 1.5))) = 8 / 3 := by
      norm_num
    have hpos : (0 : ℝ) < Real.sqrt (8 / 3) :=
      Real.sqrt_pos.mpr (by norm_num)
    have hs : Real.sqrt (8 / 3) ^ 2 = 8 / 3 := Real.sq_sqrt (by norm_num)
    refine ⟨2 / Real.sqrt ((2 : ℝ) ^ 2 + 1 / (1.5 * (1 - 1.5))), ?_, ?_⟩
    · unfold cohen_d_to_r_pb
      rw [if_neg (by norm_num)]
      rw [if_neg (by rw [harg]; norm_num)]
      rw [if_neg (by rw [harg]; exact hpos.ne')]
    · rw [harg, abs_div, abs_of_pos hpos, lt_div_iff hpos,
        show |(2 : ℝ)| = 2 by norm_num]
      nlinarith [hs, hpos]

/-- Witness for C9 at `d = 3`. -/
theorem cohen_d_to_r_pb_unvalidated_p_witness :
    cohen_d_to_r_pb 3 0 = .error .zeroDivision ∧
    cohen_d_to_r_pb 3 1 = .error .zeroDivision ∧
    cohen_d_to_r_pb 0.5 1.5 = .error .mathDomain ∧
    ∃ r, cohen_d_to_r_pb 2 1.5 = .ok r ∧ 1 < |r| :=
  cohen_d_to_r_pb_unvalidated_p 3

/-- Auxiliary: clipping into `[eps, 1 - eps]` lands in `[eps, 1 - eps]`. -/
theorem npClip_eps_mem (x : ℝ) :
    eps ≤ npClip x eps (1 - eps) ∧ npClip x eps (1 - eps) ≤ 1 - eps := by
  unfold npClip
  refine ⟨le_min (le_max_right x eps) ?_, min_le_right _ _⟩
  unfold eps; norm_num

/-- Auxiliary: after clipping, the odds ratio is strictly positive. -/
theorem clipped_odds_pos (a b : ℝ) :
    0 < (npClip a eps (1 - eps) * npClip b eps (1 - eps)) /
      ((1 - npClip a eps (1 - eps)) * (1 - npClip b eps (1 - eps))) := by
  have heps : (0 : ℝ) < eps := by unfold eps; norm_num
  have heps1 : eps < 1 := by unfold eps; norm_num
  obtain ⟨ha1, ha2⟩ := npClip_eps_mem a
  obtain ⟨hb1, hb2⟩ := npClip_eps_mem b
  have hpa : 0 < npClip a eps (1 - eps) := lt_of_lt_of_le heps ha1
  have hpb : 0 < npClip b eps (1 - eps) := lt_of_lt_of_le heps hb1
  have hqa : 0 < 1 - npClip a eps (1 - eps) := by linarith
  have hqb : 0 < 1 - npClip b eps (1 - eps) := by linarith
  positivity

/-- C5: both log-odds functions clip each input into `[eps, 1 - eps]`
with `eps = 1e-9`, never raise (the log argument is strictly positive
after clipping), and return the finite value
`log((clip a * clip b) / ((1 - clip a) * (1 - clip b)))`; the two
functions are the same map, and at the boundary
`logodds_from_sens_spec(1.0, 0.5)` coincides exactly with
`logodds_from_sens_spec(0.999999999, 0.5)`. -/
theorem logodds_clip_total (a b : ℝ) :
    (eps ≤ npClip a eps (1 - eps) ∧ npClip a eps (1 - eps) ≤ 1 - eps) ∧
    (eps ≤ npClip b eps (1 - eps) ∧ npClip b eps (1 - eps) ≤ 1 - eps) ∧
    logodds_from_sens_spec a b =
      .ok (Real.log ((npClip a eps (1 - eps) * npClip b eps (1 - eps)) /
        ((1 - npClip a eps (1 - eps)) * (1 - npClip b eps (1 - eps))))) ∧
    logodds_from_ppv_npv a b = logodds_from_sens_spec a b ∧
    logodds_from_sens_spec 1.0 0.5 = logodds_from_sens_spec 0.999999999 0.5 := by
  refine ⟨npClip_eps_mem a, npClip_eps_mem b, ?_, rfl, ?_⟩
  · unfold logodds_from_sens_spec mathLog
    rw [if_neg (not_le.mpr (clipped_odds_pos a b))]
  · have hclip : npClip 1.0 eps (1 - eps) = npClip 0.999999999 eps (1 - eps) := by
      unfold npClip eps
      have h09 : (0.999999999 : ℝ) = 1 - 1e-9 := by norm_num
      have hmax1 : max (1.0 : ℝ) 1e-9 = 1.0 := max_eq_left (by norm_num)
      have hmax2 : max ((1 : ℝ) - 1e-9) 1e-9 = 1 - 1e-9 :=
        max_eq_left (by norm_num)
      have hmin1 : min (1.0 : ℝ) (1 - 1e-9) = 1 - 1e-9 :=
        min_eq_right (by norm_num)
      rw [h09, hmax1, hmax2, hmin1, min_self]
    unfold logodds_from_sens_spec
    rw [hclip]

/-- C2 counterexample: at `s1 = s2 = 0` (with `p1 = 1/4` in `(0, 1)` and
`z = 1`) the full parametric formula divides zero by zero and does not
equal `sqrt(2) * z`, so the simplification identity is not exact for
every `s1 = s2`. -/
theorem full_parametric_zero_sd :
    (0 : ℝ) = (0 : ℝ) ∧ (0 : ℝ) < 1 / 4 ∧ (1 / 4 : ℝ) < 1 ∧
    full_parametric 0 0 (1 / 4) 1 ≠ Real.sqrt 2 * 1 := by
  refine ⟨rfl, by norm_num, by norm_num, ?_⟩
  unfold full_parametric
  rw [show ((0 : ℝ) ^ 2 + 0 ^ 2) / (1 / 4 * 0 ^ 2 + (1 - 1 / 4) * 0 ^ 2) = 0
      by norm_num,
    Real.sqrt_zero, zero_mul]
  rw [mul_one]
  exact (Real.sqrt_pos.mpr (by norm_num)).ne

/-- C2 as amended: with nonzero standard deviations the simplification
branches are exact: for `s1 = s2 = s ≠ 0` and any `p1` in `(0, 1)` the
full parametric formula collapses to `sqrt(2) * z`, and for `p1 = 0.5`
with `s1`, `s2` not both zero it does too; and `auc_to_d` returns the
balanced-case value whenever `s1 = s2` are supplied (any `p1` argument)
or `p1 = 0.5` is supplied (any `s1`, `s2` arguments). -/
theorem auc_to_d_simplifications (ppf : ℝ → ℝ)
    (auc z s p1 s1 s2 : ℝ) (po s1o s2o : Option ℝ)
    (h1 : 0.5 ≤ auc) (h2 : auc ≤ 1.0) (hp0 : 0 < p1) (hp1 : p1 < 1) :
    (s ≠ 0 → full_parametric s s p1 z = Real.sqrt 2 * z) ∧
    ((s1 ≠ 0 ∨ s2 ≠ 0) → full_parametric s1 s2 0.5 z = Real.sqrt 2 * z) ∧
    auc_to_d ppf auc (some s) (some s) po = .ok (Real.sqrt 2 * ppf auc) ∧
    auc_to_d ppf auc s1o s2o (some 0.5) = .ok (Real.sqrt 2 * ppf auc) := by
  have hguard : ¬¬(0.5 ≤ auc ∧ auc ≤ 1.0) := not_not_intro ⟨h1, h2⟩
  refine ⟨?_, ?_, ?_, ?_⟩
  · intro hs
    have hs2 : s ^ 2 ≠ 0 := pow_ne_zero 2 hs
    unfold full_parametric
    rw [show p1 * s ^ 2 + (1 - p1) * s ^ 2 = s ^ 2 by ring,
      show (s ^ 2 + s ^ 2) / s ^ 2 = 2 by rw [div_eq_iff hs2]; ring]
  · intro hs
    have hnum : 0 < s1 ^ 2 + s2 ^ 2 := by
      rcases hs with h | h
      · have := pow_ne_zero 2 h
        have h1' : 0 < s1 ^ 2 := (sq_nonneg s1).lt_of_ne' this
        nlinarith [sq_nonneg s2]
      · have := pow_ne_zero 2 h
        have h2' : 0 < s2 ^ 2 := (sq_nonneg s2).lt_of_ne' this
        nlinarith [sq_nonneg s1]
    have hne := hnum.ne'
    unfold full_parametric
    rw [show (0.5 : ℝ) * s1 ^ 2 + (1 - 0.5) * s2 ^ 2 = (s1 ^ 2 + s2 ^ 2) / 2
        by ring,
      show (s1 ^ 2 + s2 ^ 2) / ((s1 ^ 2 + s2 ^ 2) / 2) = 2
        by field_simp]
  · have hclose : bothSuppliedClose (some s) (some s) := by
      show isclose s s
      unfold isclose
      rw [sub_self, abs_zero]
      positivity
    unfold auc_to_d
    rw [if_neg hguard, if_neg (by simp), if_pos hclose]
  · have hhalf : suppliedCloseHalf (some 0.5) := by
      show isclose 0.5 0.5
      unfold isclose
      rw [sub_self, abs_zero]
      positivity
    by_cases hss : bothSuppliedClose s1o s2o
    · unfold auc_to_d
      rw [if_neg hguard, if_neg (by simp), if_pos hss]
    · unfold auc_to_d
      rw [if_neg hguard, if_neg (by simp), if_neg hss, if_pos hhalf]

/-- Witness for the amended C2 at `auc = 0.75`, `p1 = 1/4`, `s = 2`,
`s1 = 1`, `s2 = 3`, `z = 5`. -/
theorem auc_to_d_simplifications_witness :
    ((0.5 : ℝ) ≤ 0.75 ∧ (0.75 : ℝ) ≤ 1.0 ∧ (0 : ℝ) < 1 / 4 ∧
      (1 / 4 : ℝ) < 1) ∧
    (((2 : ℝ) ≠ 0 → full_parametric 2 2 (1 / 4) 5 = Real.sqrt 2 * 5) ∧
    (((1 : ℝ) ≠ 0 ∨ (3 : ℝ) ≠ 0) →
      full_parametric 1 3 0.5 5 = Real.sqrt 2 * 5) ∧
    auc_to_d (fun x => x) 0.75 (some 2) (some 2) none =
      .ok (Real.sqrt 2 * 0.75) ∧
    auc_to_d (fun x => x) 0.75 (some 1) none (some 0.5) =
      .ok (Real.sqrt 2 * 0.75)) :=
  ⟨⟨by norm_num, by norm_num, by norm_num, by norm_num⟩,
    auc_to_d_simplifications (fun x => x) 0.75 5 2 (1 / 4) 1 3
      none (some 1) none (by norm_num) (by norm_num) (by norm_num)
      (by norm_num)⟩

/-- C4: for `auc` in range, a call supplying exactly one or exactly two
of `{s1, s2, p1}` where neither isclose shortcut fires dies with the
missing-context usage error; no missing parameter is defaulted. -/
theorem auc_to_d_incomplete_context (ppf : ℝ → ℝ) (auc : ℝ)
    (s1 s2 p1 : Option ℝ) (h1 : 0.5 ≤ auc) (h2 : auc ≤ 1.0)
    (hn : numSupplied s1 s2 p1 = 1 ∨ numSupplied s1 s2 p1 = 2)
    (hc1 : ¬ bothSuppliedClose s1 s2) (hc2 : ¬ suppliedCloseHalf p1) :
    auc_to_d ppf auc s1 s2 p1 = .error .usage := by
  have hguard : ¬¬(0.5 ≤ auc ∧ auc ≤ 1.0) := not_not_intro ⟨h1, h2⟩
  rcases s1 with _ | a <;> rcases s2 with _ | b <;> rcases p1 with _ | q
  · exact absurd hn (by norm_num [numSupplied])
  · unfold auc_to_d
    rw [if_neg hguard, if_neg (by simp), if_neg hc1, if_neg hc2]
  · unfold auc_to_d
    rw [if_neg hguard, if_neg (by simp), if_neg hc1, if_neg hc2]
  · unfold auc_to_d
    rw [if_neg hguard, if_neg (by simp), if_neg hc1, if_neg hc2]
  · unfold auc_to_d
    rw [if_neg hguard, if_neg (by simp), if_neg hc1, if_neg hc2]
  · unfold auc_to_d
    rw [if_neg hguard, if_neg (by simp), if_neg hc1, if_neg hc2]
  · unfold auc_to_d
    rw [if_neg hguard, if_neg (by simp), if_neg hc1, if_neg hc2]
  · exact absurd hn (by norm_num [numSupplied])

/-- Witness for C4: only `s1` supplied, at `auc = 0.75`. -/
theorem auc_to_d_incomplete_context_witness :
    ((0.5 : ℝ) ≤ 0.75 ∧ (0.75 : ℝ) ≤ 1.0) ∧
    (numSupplied (some 1) none none = 1 ∨
      numSupplied (some 1) none none = 2) ∧
    auc_to_d (fun x => x) 0.75 (some 1) none none = .error .usage :=
  ⟨⟨by norm_num, by norm_num⟩, Or.inl rfl,
    auc_to_d_incomplete_context (fun x => x) 0.75 (some 1) none none
      (by norm_num) (by norm_num) (Or.inl rfl) not_false not_false⟩

/-- C10: the shortcut branches of `auc_to_d` fire exactly on the
`np.isclose` default tolerance bands.  For `auc` in range: if `s1` and
`s2` are supplied with `|s1 - s2| <= 1e-8 + 1e-5*|s2|` the result is
`sqrt(2) * ppf(auc)` regardless of `p1`; if `p1` is supplied with
`|p1 - 0.5| <= 1e-8 + 1e-5*0.5` the result is `sqrt(2) * ppf(auc)`
regardless of `s1` and `s2`; and when all three are supplied, both
differences exceed their bands and the denominator is nonzero, the full
parametric formula is applied. -/
theorem auc_to_d_isclose_bands (ppf : ℝ → ℝ) (auc a b q : ℝ)
    (p1 s1 s2 : Option ℝ) (h1 : 0.5 ≤ auc) (h2 : auc ≤ 1.0) :
    (|a - b| ≤ 1e-8 + 1e-5 * |b| →
      auc_to_d ppf auc (some a) (some b) p1 =
        .ok (Real.sqrt 2 * ppf auc)) ∧
    (|q - 0.5| ≤ 1e-8 + 1e-5 * (0.5 : ℝ) →
      auc_to_d ppf auc s1 s2 (some q) =
        .ok (Real.sqrt 2 * ppf auc)) ∧
    (¬ |a - b| ≤ 1e-8 + 1e-5 * |b| →
      ¬ |q - 0.5| ≤ 1e-8 + 1e-5 * (0.5 : ℝ) →
      q * a ^ 2 + (1 - q) * b ^ 2 ≠ 0 →
      auc_to_d ppf auc (some a) (some b) (some q) =
        .ok (full_parametric a b q (ppf auc))) := by
  have hguard : ¬¬(0.5 ≤ auc ∧ auc ≤ 1.0) := not_not_intro ⟨h1, h2⟩
  have habs : |(0.5 : ℝ)| = 0.5 := abs_of_pos (by norm_num)
  refine ⟨?_, ?_, ?_⟩
  · intro hab
    have hclose : bothSuppliedClose (some a) (some b) := hab
    unfold auc_to_d
    rw [if_neg hguard, if_neg (by simp), if_pos hclose]
  · intro hq
    have hhalf : suppliedCloseHalf (some q) := by
      show isclose q 0.5
      unfold isclose
      rw [habs]
      exact hq
    by_cases hss : bothSuppliedClose s1 s2
    · unfold auc_to_d
      rw [if_neg hguard, if_neg (by simp), if_pos hss]
    · unfold auc_to_d
      rw [if_neg hguard, if_neg (by simp), if_neg hss, if_pos hhalf]
  · intro hab hq hden
    have hss : ¬ bothSuppliedClose (some a) (some b) := hab
    have hph : ¬ suppliedCloseHalf (some q) := by
      show ¬ isclose q 0.5
      unfold isclose
      rw [habs]
      exact hq
    unfold auc_to_d
    rw [if_neg hguard, if_neg (by simp), if_neg hss, if_neg hph]
    show (if q * a ^ 2 + (1 - q) * b ^ 2 = 0 then
        Except.error PyError.zeroDivision
      else Except.ok (Real.sqrt ((a ^ 2 + b ^ 2) /
        (q * a ^ 2 + (1 - q) * b ^ 2)) * ppf auc)) =
      Except.ok (full_parametric a b q (ppf auc))
    rw [if_neg hden]
    rfl

/-- Witness for C10 at `auc = 0.75`, `a = b = 1`, `q = 0.7`, no other
context supplied. -/
theorem auc_to_d_isclose_bands_witness :
    ((0.5 : ℝ) ≤ 0.75 ∧ (0.75 : ℝ) ≤ 1.0) ∧
    ((|(1 : ℝ) - 1| ≤ 1e-8 + 1e-5 * |(1 : ℝ)| →
      auc_to_d (fun x => x) 0.75 (some 1) (some 1) none =
        .ok (Real.sqrt 2 * 0.75)) ∧
    (|(0.7 : ℝ) - 0.5| ≤ 1e-8 + 1e-5 * (0.5 : ℝ) →
      auc_to_d (fun x => x) 0.75 none none (some 0.7) =
        .ok (Real.sqrt 2 * 0.75)) ∧
    (¬ |(1 : ℝ) - 1| ≤ 1e-8 + 1e-5 * |(1 : ℝ)| →
      ¬ |(0.7 : ℝ) - 0.5| ≤ 1e-8 + 1e-5 * (0.5 : ℝ) →
      (0.7 : ℝ) * 1 ^ 2 + (1 - 0.7) * 1 ^ 2 ≠ 0 →
      auc_to_d (fun x => x) 0.75 (some 1) (some 1) (some 0.7) =
        .ok (full_parametric 1 1 0.7 0.75))) :=
  ⟨⟨by norm_num, by norm_num⟩,
    auc_to_d_isclose_bands (fun x => x) 0.75 1 1 0.7 none none none
      (by norm_num) (by norm_num)⟩
